import Mathlib

set_option maxRecDepth 100000

/-!
Verification development for the `llm_assistant` module of the medusa repository
(files `fuzzing/llm_assistant/llm_assistant.go`, `fuzzing/llm_assistant/utils.go`,
`fuzzing/llm_assistant/prompts.go`).

The development shallowly embeds the module: paths are strings (modelled at the
character-list level, one `Char` per byte of the Go string), the filesystem is an
association list from paths to file contents, the external generative service and
the external validation tool are oracles supplied as functions, and the Go
functions are translated into pure Lean functions with explicit state passing
for the package-global `messages` variable. The unbounded repair loop of the Go
source is embedded with an explicit fuel parameter whose exhaustion is a distinct
outcome.
-/

/-! ## Path manipulation: models of the Go standard library functions used by
`generateTestFilePath` (utils.go lines 15-21): `filepath.Split`, `filepath.Ext`,
`strings.TrimSuffix`, `filepath.Join` (which invokes `filepath.Clean`).
All functions work on `List Char`, one `Char` per byte. -/

/-- Model of Go `filepath.Split` (unix): splits a path immediately after the last
separator, returning (directory including trailing separator, file name). -/
def goSplit : List Char → List Char × List Char
  | [] => ([], [])
  | c :: rest =>
    if '/' ∈ rest then
      let p := goSplit rest
      (c :: p.1, p.2)
    else if c = '/' then ([c], rest)
    else ([], c :: rest)

/-- Helper for `goExt`: walks the reversed file name, accumulating the characters
seen so far (in original order); returns the extension when a dot is found, and
the empty list when a separator or the beginning of the string is reached first.
This mirrors the backwards scan of Go `filepath.Ext`. -/
def goExtAux : List Char → List Char → List Char
  | [], _ => []
  | c :: rest, acc =>
    if c = '/' then []
    else if c = '.' then c :: acc
    else goExtAux rest (c :: acc)

/-- Model of Go `filepath.Ext`: the suffix beginning at the final dot in the final
slash-separated element of the path; empty if there is no dot. -/
def goExt (l : List Char) : List Char := goExtAux l.reverse []

/-- Model of Go `strings.TrimSuffix`: removes the given suffix if present. -/
def goTrimSuffix (l suf : List Char) : List Char :=
  if suf.IsSuffix l then l.take (l.length - suf.length) else l

/-- Splits a character list at every separator character, mirroring how
`filepath.Clean` walks the path elements of its input. -/
def splitSlash : List Char → List (List Char)
  | [] => [[]]
  | c :: rest =>
    let r := splitSlash rest
    if c = '/' then [] :: r
    else (c :: r.headD []) :: r.tail

/-- Joins path components with single separators (no trailing separator). -/
def joinSlash : List (List Char) → List Char
  | [] => []
  | [c] => c
  | c :: cs => c ++ '/' :: joinSlash cs

/-- One step of the element processing of Go `filepath.Clean`: empty elements and
`.` elements are dropped; `..` pops the latest retained element unless the stack
is empty or holds a `..` on top, in which case `..` is kept only for non-rooted
paths; every other element is retained. The stack is kept in reverse order. -/
def cleanStep (rooted : Bool) (stack : List (List Char)) (c : List Char) :
    List (List Char) :=
  if c = [] ∨ c = ['.'] then stack
  else if c = ['.', '.'] then
    match stack with
    | s :: ss => if s = ['.', '.'] then c :: s :: ss else ss
    | [] => if rooted then [] else [c]
  else c :: stack

/-- Model of Go `filepath.Clean` (unix): shortest lexical equivalent of the path.
Implemented by splitting into elements, processing them with `cleanStep`, and
rejoining, which computes the same result as the in-place byte algorithm of the
Go source. -/
def goClean (l : List Char) : List Char :=
  if l = [] then ['.']
  else
    let rooted := l.head? = some '/'
    let stack := (splitSlash l).foldl (cleanStep rooted) []
    let s := (if rooted then ['/'] else []) ++ joinSlash stack.reverse
    if s = [] then ['.'] else s

/-- Model of Go `filepath.Join` on two elements: empty elements are dropped, the
rest are joined with a separator and the result is cleaned; all-empty input gives
the empty path. -/
def goJoin (a b : List Char) : List Char :=
  if a = [] then (if b = [] then [] else goClean b)
  else goClean (a ++ '/' :: b)

/-- Character-list version of `generateTestFilePath` (utils.go lines 15-21):
splits the path into directory and file, removes the extension from the file
name, appends the fixed marker and the extension, and joins back onto the
directory. -/
def generateTestFilePathL (filePath : List Char) : List Char :=
  let dir := (goSplit filePath).1
  let file := (goSplit filePath).2
  let ext := goExt file
  let filename := goTrimSuffix file ext
  let testFilename := filename ++ "_fuzz".data ++ ext
  goJoin dir testFilename

/-- Embedding of `generateTestFilePath` (utils.go lines 15-21). -/
def generateTestFilePath (filePath : String) : String :=
  ⟨generateTestFilePathL filePath.data⟩

/-- Embedding of `generateTestContractName` (utils.go lines 10-12):
`fmt.Sprintf("%sTest", contractName)`. -/
def generateTestContractName (contractName : String) : String :=
  contractName ++ "Test"

/-! ## Data model -/

/-- Embedding of the `Message` struct used by the conversation state: a role
(`"system"` or `"user"` in this module) and a content string. -/
structure Message where
  role : String
  content : String
deriving DecidableEq, Repr

/-- Fixed text of the first seed message of `TrainingPrompts` (prompts.go lines
43-46). The literal content is the multi-kilobyte medusa overview documentation;
it is abbreviated here because no control flow and no claim depends on the seed
texts, only on the number and roles of the seed messages. -/
def trainingDoc1 : String := "MEDUSA OVERVIEW AND INVARIANT TESTING DOCUMENTATION"

/-- Fixed text of the second seed message of `TrainingPrompts` (prompts.go lines
47-50), abbreviated for the same reason as `trainingDoc1`: the literal content is
the multi-kilobyte medusa cheatcode documentation. -/
def trainingDoc2 : String := "MEDUSA CHEATCODE DOCUMENTATION"

/-- Embedding of `TrainingPrompts` (prompts.go lines 41-64): the five seed
messages, all with role `system`, that initialize the conversation state. -/
def TrainingPrompts : List Message :=
  [⟨"system", trainingDoc1⟩,
   ⟨"system", trainingDoc2⟩,
   ⟨"system", "You are a smart contract auditing assistant. You\x27ll generate fuzz tests to be run by `medusa`. Do not generate tests for `Foundry`, only generate tests to be run by `medusa`. Make use of medusa\x27s cheatcodes where necessary"⟩,
   ⟨"system", "You will be provided with main contracts which you should carefully examine to find possible vulnerabilities/invariants that should be tested for."⟩,
   ⟨"system", "Instructions given to you following preceded by \x27Note:\x27 should be taken into utmost importance."⟩]

/-- Fixed segments of the `GenerateFuzzHarnessPrompt` template (prompts.go lines
5-28). The template is a `fmt.Sprintf` format string with twelve `%s` verbs,
giving thirteen fixed segments; each segment is abbreviated here to its opening
words (the remaining instructional prose is immaterial to every claim, which
depend only on the interpolation structure and argument order). -/
def gseg : Nat → String
  | 0 => "The following text in triple quotes is my Solidity file that resides at "
  | 1 => " containing my main contracts: "
  | 2 => " I want to fuzz test the contract in this Solidity file. The following text in triple quotes denotes the fuzz harness that resides at "
  | 3 => " : "
  | 4 => " Step 1 - If a contract named "
  | 5 => " does not exist in the Solidity file, create it. This contract contains the tests for "
  | 6 => " . Step 2 - Go through the tests present in "
  | 7 => " , if any. If there are no tests present, create a test case for "
  | 8 => " . If there are tests present, add another test case for "
  | 9 => " to "
  | 10 => " . Note: The test case created should be a system invariant and should return only the contents of the test file after the test case has been added to "
  | 11 => " for "
  | _ => " END OF GENERATION TEMPLATE"

/-- Embedding of `GenerateFuzzHarnessPrompt` (prompts.go lines 5-28):
`fmt.Sprintf` of the fixed template over the arguments in source order
(contractPath, contractContents, testContractPath, testContractContents,
testContractName, contractName, testContractName, contractName, contractName,
testContractName, contractName, testContractName). -/
def GenerateFuzzHarnessPrompt (contractPath testContractPath contractContents
    testContractContents contractName testContractName : String) : String :=
  gseg 0 ++ contractPath ++ gseg 1 ++ contractContents ++ gseg 2 ++
  testContractPath ++ gseg 3 ++ testContractContents ++ gseg 4 ++
  testContractName ++ gseg 5 ++ contractName ++ gseg 6 ++ testContractName ++
  gseg 7 ++ contractName ++ gseg 8 ++ contractName ++ gseg 9 ++
  testContractName ++ gseg 10 ++ contractName ++ gseg 11 ++ testContractName ++
  gseg 12

/-- Fixed segments of the `RegenerateFuzzHarnessPrompt` template (prompts.go
lines 30-39): a `fmt.Sprintf` format string with a single `%s` verb for the
encountered error, giving two fixed segments, abbreviated to their opening
words. -/
def rseg : Nat → String
  | 0 => "There is an error in the generated fuzzing harness. Here is the error in triple quotes: "
  | _ => " . Please fix the error and re-generate the test file."

/-- Embedding of `RegenerateFuzzHarnessPrompt` (prompts.go lines 30-39). -/
def RegenerateFuzzHarnessPrompt (errEncountered : String) : String :=
  rseg 0 ++ errEncountered ++ rseg 1

/-- Modelled from the spec: the `SourceUnit` supplied by the upstream
`contracts.Contracts` collaborator (not part of the provided sources), which this
module only queries through `Name()` and `SourcePath()`. -/
structure Contract where
  name : String
  sourcePath : String
deriving DecidableEq, Repr

/-! ## Filesystem model: an association list from paths to file contents, with
the most recent write at the front. -/

/-- Filesystem state: association list from path to content. -/
abbrev FS := List (String × String)

/-- Reading a file: the most recently written content, or `none` if absent
(the `os.ReadFile` not-found error case and the `os.Stat` existence check). -/
def fsRead : FS → String → Option String
  | [], _ => none
  | (q, c) :: rest, p => if q = p then some c else fsRead rest p

/-- Writing a file (`os.WriteFile`): full replacement of the content. -/
def fsWrite (fs : FS) (p content : String) : FS := (p, content) :: fs

/-- Embedding of the loop body of `createTestFiles` for a single path
(llm_assistant.go lines 140-146): `os.Create` (an empty file) iff `os.Stat`
reports the file does not exist; no-op otherwise. This is the spec\x27s
`ensureExists`. -/
def ensureExists (fs : FS) (p : String) : FS :=
  if (fsRead fs p).isSome then fs else fsWrite fs p ""

/-- Embedding of `createTestFiles` (llm_assistant.go lines 134-150): ensures a
test file exists for each contract definition. In the association-list
filesystem model, file creation cannot fail, so the error return of the Go
function is always nil and is omitted. -/
def createTestFiles : List Contract → FS → FS
  | [], fs => fs
  | c :: rest, fs =>
    createTestFiles rest (ensureExists fs (generateTestFilePath c.sourcePath))

/-! ## External collaborators and run state -/

/-- Modelled from the spec: the outcome channel of
`utils.RunCommandWithOutputAndError` (a helper outside the provided sources) as
observed by `validateTestFile`: the captured standard error bytes together with
an optional error value, which is present both when the tool ran and exited
non-zero (a validation diagnostic) and when the tool process could not be
spawned or completed. -/
inductive VErr where
  /-- The validator tool ran and exited non-zero (validation diagnostic). -/
  | exitError (msg : String)
  /-- The validator tool process could not be spawned or completed. -/
  | spawnError (msg : String)
deriving DecidableEq, Repr

/-- Error values the run can propagate to the caller. Go\x27s `error` interface
can carry any error value; the `validatorErr` constructor exists so that the
impossibility of the run ever propagating a validator error is expressible as a
theorem rather than being built into the type. -/
inductive Err where
  /-- `os.ReadFile` failure: the file at the path does not exist. -/
  | notFound (path : String)
  /-- Error returned by the `AskGPT4Turbo` generative call. -/
  | service (msg : String)
  /-- An error originating from the validator invocation (never produced by the
  embedded code; see the claim about validation diagnostics). -/
  | validatorErr (e : VErr)
deriving DecidableEq, Repr

/-- Result of a run or of the repair loop: successful completion, a propagated
fatal error, or exhaustion of the fuel bounding the embedded unbounded loop. -/
inductive RunRes where
  | ok
  | err (e : Err)
  | fuelOut
deriving DecidableEq, Repr

/-- The external collaborators, supplied as oracles. `askGPT` models
`AskGPT4Turbo` (indexed by how many generative calls were made before, then
given the full message history); `validate` models the validator invocation
made by `validateTestFile` (indexed by how many validator calls were made
before, then given the artifact path), returning the captured standard error
and the optional error value. -/
structure Env where
  askGPT : Nat → List Message → Except String String
  validate : Nat → String → String × Option VErr

/-- The mutable state threaded through the run: the filesystem, the
package-global `messages` conversation history (llm_assistant.go line 12), and
instrumentation counters for the number of generative and validator calls made
(used to index the oracles and to state counting properties). -/
structure OState where
  fs : FS
  messages : List Message
  genCalls : Nat
  valCalls : Nat
deriving DecidableEq, Repr

/-- Initial state of a run: the conversation history starts as
`TrainingPrompts` (llm_assistant.go line 12) and no external calls were made. -/
def initState (fs : FS) : OState :=
  { fs := fs, messages := TrainingPrompts, genCalls := 0, valCalls := 0 }

/-! ## The orchestrator -/

/-- One invocation of `AskGPT4Turbo(messages)`: consults the generative oracle
at the current call index and advances the call counter. -/
def askGPT4Turbo (env : Env) (st : OState) (msgs : List Message) :
    Except String String × OState :=
  (env.askGPT st.genCalls msgs, { st with genCalls := st.genCalls + 1 })

/-- Embedding of `processMessageWithGPT4Turbo` (llm_assistant.go lines 108-124):
appends the message to the history, asks the generative service with the full
history, and on success appends the response to the history. On failure the
appended request message is left in the history, as in the source. -/
def processMessageWithGPT4Turbo (env : Env) (st : OState) (message : Message) :
    Except String String × OState :=
  let st1 := { st with messages := st.messages ++ [message] }
  match askGPT4Turbo env st1 st1.messages with
  | (.error e, st2) => (.error e, st2)
  | (.ok response, st2) =>
    (.ok response,
     { st2 with messages := st2.messages ++ [Message.mk "system" response] })

/-- Embedding of `validateTestFile` (llm_assistant.go lines 126-132): runs the
external validation tool on the test file path and returns the captured
standard error together with the error value of the command run. -/
def validateTestFile (env : Env) (st : OState) (testFilePath : String) :
    (String × Option VErr) × OState :=
  (env.validate st.valCalls testFilePath, { st with valCalls := st.valCalls + 1 })

/-- The generation request message built in `generateFuzzingHarness`
(llm_assistant.go lines 52-55). -/
def generationMessage (c : Contract) (contractSourceCode testContractSourceCode :
    String) : Message :=
  ⟨"user",
   GenerateFuzzHarnessPrompt c.sourcePath (generateTestFilePath c.sourcePath)
     contractSourceCode testContractSourceCode c.name
     (generateTestContractName c.name)⟩

/-- Embedding of the inner `for` loop of `generateFuzzingHarness`
(llm_assistant.go lines 80-103): validate the test file, break on a nil error,
otherwise build a repair request from the captured standard error, process it
with the generative service, write the response to the test file and loop. The
source loop is unbounded; `fuel` bounds the embedding, with exhaustion reported
as `RunRes.fuelOut`. -/
def repairLoop (env : Env) (c : Contract) : Nat → OState → RunRes × OState
  | 0, st => (.fuelOut, st)
  | fuel + 1, st =>
    match validateTestFile env st (generateTestFilePath c.sourcePath) with
    | ((stdErr, verr), st1) =>
      match verr with
      | none => (.ok, st1)
      | some _ =>
        match processMessageWithGPT4Turbo env st1
            ⟨"user", RegenerateFuzzHarnessPrompt stdErr⟩ with
        | (.error e, st2) => (.err (.service e), st2)
        | (.ok response, st2) =>
          repairLoop env c fuel
            { st2 with
              fs := fsWrite st2.fs (generateTestFilePath c.sourcePath) response }

/-- Embedding of the per-contract body of `generateFuzzingHarness`
(llm_assistant.go lines 36-103): read the contract source and the test file,
build and append the generation request, ask the generative service, append and
persist the response, then run the repair loop. -/
def processContract (env : Env) (fuel : Nat) (c : Contract) (st : OState) :
    RunRes × OState :=
  let testFilePath := generateTestFilePath c.sourcePath
  match fsRead st.fs c.sourcePath with
  | none => (.err (.notFound c.sourcePath), st)
  | some contractSourceCode =>
    match fsRead st.fs testFilePath with
    | none => (.err (.notFound testFilePath), st)
    | some testContractSourceCode =>
      let st1 := { st with messages := st.messages ++
        [generationMessage c contractSourceCode testContractSourceCode] }
      match askGPT4Turbo env st1 st1.messages with
      | (.error e, st2) => (.err (.service e), st2)
      | (.ok response, st2) =>
        let st3 := { st2 with
          messages := st2.messages ++ [Message.mk "system" response] }
        let st4 := { st3 with fs := fsWrite st3.fs testFilePath response }
        repairLoop env c fuel st4

/-- Embedding of the outer loop of `generateFuzzingHarness` (llm_assistant.go
lines 32-106): processes each contract definition in order, propagating the
first fatal error. -/
def generateFuzzingHarnessLoop (env : Env) (fuel : Nat) :
    List Contract → OState → RunRes × OState
  | [], st => (.ok, st)
  | c :: rest, st =>
    match processContract env fuel c st with
    | (.ok, st1) => generateFuzzingHarnessLoop env fuel rest st1
    | (r, st1) => (r, st1)

/-- Embedding of the exported `GenerateFuzzingHarness` (llm_assistant.go lines
14-30): first ensures a test file exists for every contract definition, then
generates the fuzzing harnesses. -/
def GenerateFuzzingHarness (env : Env) (fuel : Nat) (contracts : List Contract)
    (st : OState) : RunRes × OState :=
  generateFuzzingHarnessLoop env fuel contracts
    { st with fs := createTestFiles contracts st.fs }

/-! ## Auxiliary definitions used by the statements of the theorems -/

/-- An ordinary path component: nonempty, free of separators, and neither of
the special elements `.` and `..` treated specially by `filepath.Clean`. -/
def normalComp (c : List Char) : Prop :=
  c ≠ [] ∧ '/' ∉ c ∧ c ≠ ['.'] ∧ c ≠ ['.', '.']

instance (c : List Char) : Decidable (normalComp c) := by
  unfold normalComp; infer_instance

/-- The canonical path with the given components, optionally rooted. -/
def pathOf (root : Bool) (cs : List (List Char)) : List Char :=
  (if root then ['/'] else []) ++ joinSlash cs

/-! ## Concrete stub collaborators and inputs used by the counterexample and
witness theorems -/

/-- Stub collaborators: the generative service always answers `R`; the first
validator invocation reports that the tool could not be spawned, every later
one succeeds. -/
def envSpawnFail : Env :=
  { askGPT := fun _ _ => .ok "R",
    validate := fun i _ =>
      if i = 0 then ("", some (.spawnError "exec: crytic-compile not found"))
      else ("", none) }

/-- Stub collaborators: both the generative service and the validator always
succeed. -/
def envAllOk : Env :=
  { askGPT := fun _ _ => .ok "R", validate := fun _ _ => ("", none) }

/-- Stub collaborators: the generative service succeeds on its first call and
fails on the second one (the second source unit, when the first unit needs no
repair); the validator always succeeds. -/
def envSecondFails : Env :=
  { askGPT := fun i _ => if i = 1 then .error "boom" else .ok "R0",
    validate := fun _ _ => ("", none) }

/-- Stub collaborators: the generative service always succeeds; the validator
fails exactly twice (with a diagnostic) and then succeeds. -/
def envFailTwice : Env :=
  { askGPT := fun _ _ => .ok "R",
    validate := fun i _ =>
      if i < 2 then ("compile error", some (.exitError "exit status 1"))
      else ("", none) }

/-- Concrete source units used by the counterexample and witness theorems. -/
def cFoo : Contract := ⟨"Foo", "d/Foo.sol"⟩

/-- Second concrete source unit. -/
def cBar : Contract := ⟨"Bar", "d/Bar.sol"⟩

/-- Third concrete source unit. -/
def cBaz : Contract := ⟨"Baz", "d/Baz.sol"⟩

/-- Concrete filesystem holding the sources of `cFoo`, `cBar` and `cBaz` and no
test files. -/
def fs3 : FS := [("d/Foo.sol", "sF"), ("d/Bar.sol", "sB"), ("d/Baz.sol", "sZ")]

/-! ## Filesystem lemmas -/

theorem fsRead_write_self (fs : FS) (p c : String) :
    fsRead (fsWrite fs p c) p = some c := by
  simp [fsRead, fsWrite]

theorem fsRead_write_ne (fs : FS) (p c q : String) (h : q ≠ p) :
    fsRead (fsWrite fs p c) q = fsRead fs q := by
  simp only [fsRead, fsWrite]
  rw [if_neg (Ne.symm h)]

theorem ensure_of_present (fs : FS) (p C : String) (h : fsRead fs p = some C) :
    ensureExists fs p = fs := by
  simp [ensureExists, h]

theorem ensure_read_self (fs : FS) (p : String) :
    fsRead (ensureExists fs p) p = some ((fsRead fs p).getD "") := by
  cases h : fsRead fs p <;> simp [ensureExists, h, fsRead_write_self]

theorem ensure_read_ne (fs : FS) (p q : String) (h : q ≠ p) :
    fsRead (ensureExists fs p) q = fsRead fs q := by
  unfold ensureExists
  split
  · rfl
  · exact fsRead_write_ne fs p "" q h

theorem fsWrite_mono (fs : FS) (p c q : String)
    (h : (fsRead fs q).isSome) : (fsRead (fsWrite fs p c) q).isSome := by
  by_cases hq : q = p
  · subst hq; simp [fsRead_write_self]
  · rw [fsRead_write_ne fs p c q hq]; exact h

theorem ensure_mono (fs : FS) (p q : String)
    (h : (fsRead fs q).isSome) : (fsRead (ensureExists fs p) q).isSome := by
  unfold ensureExists
  split
  · exact h
  · exact fsWrite_mono fs p "" q h

theorem createTestFiles_mono (contracts : List Contract) (fs : FS) (q : String)
    (h : (fsRead fs q).isSome) :
    (fsRead (createTestFiles contracts fs) q).isSome := by
  induction contracts generalizing fs with
  | nil => exact h
  | cons c rest ih =>
    exact ih _ (ensure_mono _ _ _ h)

theorem createTestFiles_covers (contracts : List Contract) (fs : FS)
    (c : Contract) (hc : c ∈ contracts) :
    (fsRead (createTestFiles contracts fs)
      (generateTestFilePath c.sourcePath)).isSome := by
  induction contracts generalizing fs with
  | nil => cases hc
  | cons d rest ih =>
    rcases List.mem_cons.mp hc with h | h
    · subst h
      exact createTestFiles_mono rest _ _ (by rw [ensure_read_self]; rfl)
    · exact ih _ h

/-! ## Claim C5 -/

/-- C5: `ensureExists` (the body of `createTestFiles` for one path) creates an
empty file at the path iff no file exists there, leaving every other path
untouched, and is a no-op that leaves existing content exactly unchanged
(never truncating) when the file already exists. -/
theorem C5_ensureExists_creates_iff_absent : ∀ (fs : FS) (p : String),
    (fsRead fs p = none → fsRead (ensureExists fs p) p = some "" ∧
      ∀ q, q ≠ p → fsRead (ensureExists fs p) q = fsRead fs q) ∧
    (∀ C, fsRead fs p = some C → ensureExists fs p = fs) := by
  intro fs p
  refine ⟨fun h => ⟨?_, fun q hq => ensure_read_ne fs p q hq⟩,
          fun C h => ensure_of_present fs p C h⟩
  rw [ensure_read_self, h]; rfl

/-- Witness for C5 at concrete inputs: creation on an absent path, exact
preservation of existing content `"C"`. -/
theorem C5_witness :
    fsRead (ensureExists [] "d/Foo_fuzz.sol") "d/Foo_fuzz.sol" = some "" ∧
    ensureExists [("a", "C")] "a" = [("a", "C")] :=
  ⟨((C5_ensureExists_creates_iff_absent [] "d/Foo_fuzz.sol").1 rfl).1,
   (C5_ensureExists_creates_iff_absent [("a", "C")] "a").2 "C" rfl⟩

/-! ## Claim C7: full-replace persistence -/

/-- C7: in every PERSIST step the artifact content is replaced with exactly the
raw generative response text. First conjunct: `fsWrite` is a full replace whose
read-back is exactly the written text, independent of prior content, and it
leaves every other path unchanged. Second conjunct: after the generation
request succeeds with response `resp`, the orchestrator enters the repair loop
in a state whose artifact content is exactly `resp`. Third conjunct: after a
repair request succeeds with response `resp`, the loop continues in a state
whose artifact content is exactly `resp`. -/
theorem C7_persist_raw_response :
    (∀ (fs : FS) (p r : String), fsRead (fsWrite fs p r) p = some r ∧
      ∀ q, q ≠ p → fsRead (fsWrite fs p r) q = fsRead fs q) ∧
    (∀ (env : Env) (fuel : Nat) (c : Contract) (st : OState) (src tst resp : String),
      fsRead st.fs c.sourcePath = some src →
      fsRead st.fs (generateTestFilePath c.sourcePath) = some tst →
      env.askGPT st.genCalls (st.messages ++ [generationMessage c src tst]) = .ok resp →
      ∃ st', processContract env fuel c st = repairLoop env c fuel st' ∧
        fsRead st'.fs (generateTestFilePath c.sourcePath) = some resp) ∧
    (∀ (env : Env) (c : Contract) (fuel : Nat) (st : OState) (s resp : String)
      (v : VErr),
      env.validate st.valCalls (generateTestFilePath c.sourcePath) = (s, some v) →
      env.askGPT st.genCalls
        (st.messages ++ [Message.mk "user" (RegenerateFuzzHarnessPrompt s)]) = .ok resp →
      ∃ st', repairLoop env c (fuel + 1) st = repairLoop env c fuel st' ∧
        fsRead st'.fs (generateTestFilePath c.sourcePath) = some resp) := by
  refine ⟨fun fs p r => ⟨fsRead_write_self fs p r, fun q hq => fsRead_write_ne fs p r q hq⟩,
    ?_, ?_⟩
  · intro env fuel c st src tst resp h1 h2 hgen
    simp only [processContract, h1, h2, askGPT4Turbo, hgen]
    exact ⟨_, rfl, fsRead_write_self _ _ _⟩
  · intro env c fuel st s resp v hv hgen
    simp only [repairLoop, validateTestFile, hv, processMessageWithGPT4Turbo,
      askGPT4Turbo, hgen]
    exact ⟨_, rfl, fsRead_write_self _ _ _⟩

/-- Witness for C7 at concrete inputs, applying each conjunct. -/
theorem C7_witness :
    fsRead (fsWrite [("p", "old")] "p" "new") "p" = some "new" ∧
    (∃ st', processContract envAllOk 1 cFoo
        (initState [("d/Foo.sol", "sF"), ("d/Foo_fuzz.sol", "")]) =
        repairLoop envAllOk cFoo 1 st' ∧
      fsRead st'.fs (generateTestFilePath cFoo.sourcePath) = some "R") ∧
    (∃ st', repairLoop envFailTwice cFoo 1 (initState [("d/Foo.sol", "sF")]) =
        repairLoop envFailTwice cFoo 0 st' ∧
      fsRead st'.fs (generateTestFilePath cFoo.sourcePath) = some "R") :=
  ⟨(C7_persist_raw_response.1 [("p", "old")] "p" "new").1,
   C7_persist_raw_response.2.1 envAllOk 1 cFoo
     (initState [("d/Foo.sol", "sF"), ("d/Foo_fuzz.sol", "")]) "sF" "" "R" rfl rfl rfl,
   C7_persist_raw_response.2.2 envFailTwice cFoo 0 (initState [("d/Foo.sol", "sF")])
     "compile error" "R" (.exitError "exit status 1") rfl rfl⟩

/-! ## Claim C9: no rollback of the repair request on a failed generative call -/

/-- C9: if the generative client fails during a repair cycle, the repair request
that was appended to the conversation history before the failed call remains in
the history (no rollback), so after the fatal error the history ends with a
user request that has no matching response; the artifact is not rewritten. -/
theorem C9_failed_repair_keeps_request :
    ∀ (env : Env) (c : Contract) (fuel : Nat) (st : OState) (s e : String) (v : VErr),
    env.validate st.valCalls (generateTestFilePath c.sourcePath) = (s, some v) →
    env.askGPT st.genCalls
      (st.messages ++ [Message.mk "user" (RegenerateFuzzHarnessPrompt s)]) = .error e →
    repairLoop env c (fuel + 1) st =
      (.err (.service e),
       { st with
         messages := st.messages ++ [Message.mk "user" (RegenerateFuzzHarnessPrompt s)],
         genCalls := st.genCalls + 1,
         valCalls := st.valCalls + 1 }) := by
  intro env c fuel st s e v hv hgen
  simp only [repairLoop, validateTestFile, hv, processMessageWithGPT4Turbo,
    askGPT4Turbo, hgen]

/-- Witness for C9 at concrete inputs: the generative service is down, the
validator reports a diagnostic, and the history ends with the unanswered repair
request. -/
theorem C9_witness :
    repairLoop
      { askGPT := fun _ _ => .error "service down",
        validate := fun i _ =>
          if i < 2 then ("compile error", some (.exitError "exit status 1"))
          else ("", none) }
      cFoo 4 (initState [("d/Foo.sol", "sF")]) =
      (.err (.service "service down"),
       { initState [("d/Foo.sol", "sF")] with
         messages := (initState [("d/Foo.sol", "sF")]).messages ++
           [Message.mk "user" (RegenerateFuzzHarnessPrompt "compile error")],
         genCalls := 1, valCalls := 1 }) :=
  C9_failed_repair_keeps_request _ cFoo 3 (initState [("d/Foo.sol", "sF")])
    "compile error" "service down" (.exitError "exit status 1") rfl rfl

/-! ## Shape lemmas for the orchestrator steps -/

theorem processMessage_cases (env : Env) (st : OState) (m : Message) :
    (∃ e, processMessageWithGPT4Turbo env st m =
      (.error e, { st with messages := st.messages ++ [m],
                           genCalls := st.genCalls + 1 })) ∨
    (∃ r, processMessageWithGPT4Turbo env st m =
      (.ok r, { st with messages := (st.messages ++ [m]) ++ [Message.mk "system" r],
                        genCalls := st.genCalls + 1 })) := by
  cases hg : env.askGPT st.genCalls (st.messages ++ [m]) with
  | error e =>
    exact .inl ⟨e, by simp only [processMessageWithGPT4Turbo, askGPT4Turbo, hg]⟩
  | ok r =>
    exact .inr ⟨r, by simp only [processMessageWithGPT4Turbo, askGPT4Turbo, hg]⟩

theorem repairLoop_val_ok (env : Env) (c : Contract) (fuel : Nat) (st : OState)
    (hv : (env.validate st.valCalls (generateTestFilePath c.sourcePath)).2 = none) :
    repairLoop env c (fuel + 1) st = (.ok, { st with valCalls := st.valCalls + 1 }) := by
  rcases hval : env.validate st.valCalls (generateTestFilePath c.sourcePath) with ⟨s, verr⟩
  rw [hval] at hv
  simp only at hv
  subst hv
  simp only [repairLoop, validateTestFile, hval]

theorem processContract_genOk (env : Env) (fuel : Nat) (c : Contract) (st : OState)
    (src tst r : String)
    (h1 : fsRead st.fs c.sourcePath = some src)
    (h2 : fsRead st.fs (generateTestFilePath c.sourcePath) = some tst)
    (hg : env.askGPT st.genCalls (st.messages ++ [generationMessage c src tst]) = .ok r) :
    processContract env fuel c st = repairLoop env c fuel
      { st with
        fs := fsWrite st.fs (generateTestFilePath c.sourcePath) r,
        messages := (st.messages ++ [generationMessage c src tst]) ++
          [Message.mk "system" r],
        genCalls := st.genCalls + 1 } := by
  simp only [processContract, h1, h2, askGPT4Turbo, hg]

theorem processContract_genErr (env : Env) (fuel : Nat) (c : Contract) (st : OState)
    (src tst e : String)
    (h1 : fsRead st.fs c.sourcePath = some src)
    (h2 : fsRead st.fs (generateTestFilePath c.sourcePath) = some tst)
    (hg : env.askGPT st.genCalls (st.messages ++ [generationMessage c src tst]) = .error e) :
    processContract env fuel c st =
      (.err (.service e),
       { st with messages := st.messages ++ [generationMessage c src tst],
                 genCalls := st.genCalls + 1 }) := by
  simp only [processContract, h1, h2, askGPT4Turbo, hg]

/-! ## Counting and monotonicity lemmas -/

theorem repairLoop_mono (env : Env) (c : Contract) :
    ∀ (fuel : Nat) (st : OState) (r : RunRes) (st' : OState),
    repairLoop env c fuel st = (r, st') →
    st.messages <+: st'.messages ∧ st.genCalls ≤ st'.genCalls ∧
      st.valCalls ≤ st'.valCalls := by
  intro fuel
  induction fuel with
  | zero =>
    intro st r st' h
    simp only [repairLoop] at h
    have hst : st' = st := (congrArg Prod.snd h).symm
    subst hst
    exact ⟨List.prefix_refl _, le_refl _, le_refl _⟩
  | succ fuel ih =>
    intro st r st' h
    rcases hval : env.validate st.valCalls (generateTestFilePath c.sourcePath)
      with ⟨s, verr⟩
    simp only [repairLoop, validateTestFile, hval] at h
    cases verr with
    | none =>
      have hst : st' = { st with valCalls := st.valCalls + 1 } :=
        (congrArg Prod.snd h).symm
      subst hst
      exact ⟨List.prefix_refl _, le_refl _, Nat.le_succ _⟩
    | some v =>
      rcases processMessage_cases env { st with valCalls := st.valCalls + 1 }
        ⟨"user", RegenerateFuzzHarnessPrompt s⟩ with ⟨e, hpm⟩ | ⟨resp, hpm⟩
      · rw [hpm] at h
        have hst : st' = _ := (congrArg Prod.snd h).symm
        subst hst
        exact ⟨List.prefix_append _ _, Nat.le_succ _, Nat.le_succ _⟩
      · rw [hpm] at h
        obtain ⟨hm, hg, hv⟩ := ih _ _ _ h
        refine ⟨List.IsPrefix.trans ?_ hm, le_trans ?_ hg, le_trans ?_ hv⟩
        · exact (List.prefix_append _ _).trans (List.prefix_append _ _)
        · exact Nat.le_succ _
        · exact Nat.le_succ _

theorem repairLoop_ok_counts (env : Env) (c : Contract) :
    ∀ (fuel : Nat) (st st' : OState),
    repairLoop env c fuel st = (.ok, st') →
    ∃ k, st'.genCalls = st.genCalls + k ∧ st'.valCalls = st.valCalls + (k + 1) ∧
      st'.messages.length = st.messages.length + 2 * k := by
  intro fuel
  induction fuel with
  | zero =>
    intro st st' h
    simp only [repairLoop] at h
    exact absurd (congrArg Prod.fst h) (by simp)
  | succ fuel ih =>
    intro st st' h
    rcases hval : env.validate st.valCalls (generateTestFilePath c.sourcePath)
      with ⟨s, verr⟩
    simp only [repairLoop, validateTestFile, hval] at h
    cases verr with
    | none =>
      have hst : st' = { st with valCalls := st.valCalls + 1 } :=
        (congrArg Prod.snd h).symm
      subst hst
      exact ⟨0, rfl, rfl, by simp⟩
    | some v =>
      rcases processMessage_cases env { st with valCalls := st.valCalls + 1 }
        ⟨"user", RegenerateFuzzHarnessPrompt s⟩ with ⟨e, hpm⟩ | ⟨resp, hpm⟩
      · rw [hpm] at h
        exact absurd (congrArg Prod.fst h) (by simp)
      · rw [hpm] at h
        obtain ⟨k, hg, hv, hm⟩ := ih _ _ h
        simp at hg hv hm
        exact ⟨k + 1, by omega, by omega, by omega⟩

theorem repairLoop_ok_lastVal (env : Env) (c : Contract) :
    ∀ (fuel : Nat) (st st' : OState),
    repairLoop env c fuel st = (.ok, st') →
    ∃ j, st'.valCalls = j + 1 ∧
      (env.validate j (generateTestFilePath c.sourcePath)).2 = none := by
  intro fuel
  induction fuel with
  | zero =>
    intro st st' h
    simp only [repairLoop] at h
    exact absurd (congrArg Prod.fst h) (by simp)
  | succ fuel ih =>
    intro st st' h
    rcases hval : env.validate st.valCalls (generateTestFilePath c.sourcePath)
      with ⟨s, verr⟩
    simp only [repairLoop, validateTestFile, hval] at h
    cases verr with
    | none =>
      have hst : st' = { st with valCalls := st.valCalls + 1 } :=
        (congrArg Prod.snd h).symm
      subst hst
      exact ⟨st.valCalls, rfl, by rw [hval]⟩
    | some v =>
      rcases processMessage_cases env { st with valCalls := st.valCalls + 1 }
        ⟨"user", RegenerateFuzzHarnessPrompt s⟩ with ⟨e, hpm⟩ | ⟨resp, hpm⟩
      · rw [hpm] at h
        exact absurd (congrArg Prod.fst h) (by simp)
      · rw [hpm] at h
        exact ih _ _ h

theorem repairLoop_err_service (env : Env) (c : Contract) :
    ∀ (fuel : Nat) (st : OState) (e : Err) (st' : OState),
    repairLoop env c fuel st = (.err e, st') → ∃ m, e = .service m := by
  intro fuel
  induction fuel with
  | zero =>
    intro st e st' h
    simp only [repairLoop] at h
    exact absurd (congrArg Prod.fst h) (by simp)
  | succ fuel ih =>
    intro st e st' h
    rcases hval : env.validate st.valCalls (generateTestFilePath c.sourcePath)
      with ⟨s, verr⟩
    simp only [repairLoop, validateTestFile, hval] at h
    cases verr with
    | none => exact absurd (congrArg Prod.fst h) (by simp)
    | some v =>
      rcases processMessage_cases env { st with valCalls := st.valCalls + 1 }
        ⟨"user", RegenerateFuzzHarnessPrompt s⟩ with ⟨m, hpm⟩ | ⟨resp, hpm⟩
      · rw [hpm] at h
        have := congrArg Prod.fst h
        simp only at this
        exact ⟨m, by cases this; rfl⟩
      · rw [hpm] at h
        exact ih _ _ _ h

theorem processMessage_ok_eq (env : Env) (st : OState) (m : Message) (r : String)
    (hg : env.askGPT st.genCalls (st.messages ++ [m]) = .ok r) :
    processMessageWithGPT4Turbo env st m =
      (.ok r, { st with messages := (st.messages ++ [m]) ++ [Message.mk "system" r],
                        genCalls := st.genCalls + 1 }) := by
  simp only [processMessageWithGPT4Turbo, askGPT4Turbo, hg]

theorem processContract_ok_counts (env : Env) (fuel : Nat) (c : Contract)
    (st st' : OState) (h : processContract env fuel c st = (.ok, st')) :
    ∃ k, st'.genCalls = st.genCalls + (1 + k) ∧
      st'.valCalls = st.valCalls + (1 + k) ∧
      st'.messages.length = st.messages.length + 2 * (1 + k) := by
  cases h1 : fsRead st.fs c.sourcePath with
  | none =>
    simp only [processContract, h1] at h
    exact absurd (congrArg Prod.fst h) (by simp)
  | some src =>
    cases h2 : fsRead st.fs (generateTestFilePath c.sourcePath) with
    | none =>
      simp only [processContract, h1, h2] at h
      exact absurd (congrArg Prod.fst h) (by simp)
    | some tst =>
      cases hg : env.askGPT st.genCalls
          (st.messages ++ [generationMessage c src tst]) with
      | error e =>
        rw [processContract_genErr env fuel c st src tst e h1 h2 hg] at h
        exact absurd (congrArg Prod.fst h) (by simp)
      | ok r =>
        rw [processContract_genOk env fuel c st src tst r h1 h2 hg] at h
        obtain ⟨k, hkg, hkv, hkm⟩ := repairLoop_ok_counts env c fuel _ _ h
        simp at hkg hkv hkm
        exact ⟨k, by omega, by omega, by omega⟩

theorem processContract_err_class (env : Env) (fuel : Nat) (c : Contract)
    (st : OState) (e : Err) (st' : OState)
    (h : processContract env fuel c st = (.err e, st')) :
    (∃ p, e = .notFound p) ∨ (∃ m, e = .service m) := by
  cases h1 : fsRead st.fs c.sourcePath with
  | none =>
    simp only [processContract, h1] at h
    have := congrArg Prod.fst h
    simp only at this
    exact .inl ⟨c.sourcePath, by cases this; rfl⟩
  | some src =>
    cases h2 : fsRead st.fs (generateTestFilePath c.sourcePath) with
    | none =>
      simp only [processContract, h1, h2] at h
      have := congrArg Prod.fst h
      simp only at this
      exact .inl ⟨generateTestFilePath c.sourcePath, by cases this; rfl⟩
    | some tst =>
      cases hg : env.askGPT st.genCalls
          (st.messages ++ [generationMessage c src tst]) with
      | error m =>
        rw [processContract_genErr env fuel c st src tst m h1 h2 hg] at h
        have := congrArg Prod.fst h
        simp only at this
        exact .inr ⟨m, by cases this; rfl⟩
      | ok r =>
        rw [processContract_genOk env fuel c st src tst r h1 h2 hg] at h
        exact .inr (repairLoop_err_service env c fuel _ e _ h)

theorem processContract_mono (env : Env) (fuel : Nat) (c : Contract)
    (st : OState) (r : RunRes) (st' : OState)
    (h : processContract env fuel c st = (r, st')) :
    st.messages <+: st'.messages ∧ st.genCalls ≤ st'.genCalls ∧
      st.valCalls ≤ st'.valCalls := by
  cases h1 : fsRead st.fs c.sourcePath with
  | none =>
    simp only [processContract, h1] at h
    have hst : st' = st := (congrArg Prod.snd h).symm
    subst hst
    exact ⟨List.prefix_refl _, le_refl _, le_refl _⟩
  | some src =>
    cases h2 : fsRead st.fs (generateTestFilePath c.sourcePath) with
    | none =>
      simp only [processContract, h1, h2] at h
      have hst : st' = st := (congrArg Prod.snd h).symm
      subst hst
      exact ⟨List.prefix_refl _, le_refl _, le_refl _⟩
    | some tst =>
      cases hg : env.askGPT st.genCalls
          (st.messages ++ [generationMessage c src tst]) with
      | error m =>
        rw [processContract_genErr env fuel c st src tst m h1 h2 hg] at h
        have hst : st' = _ := (congrArg Prod.snd h).symm
        subst hst
        exact ⟨List.prefix_append _ _, Nat.le_succ _, le_refl _⟩
      | ok r2 =>
        rw [processContract_genOk env fuel c st src tst r2 h1 h2 hg] at h
        obtain ⟨hm, hgc, hvc⟩ := repairLoop_mono env c fuel _ _ _ h
        refine ⟨List.IsPrefix.trans ?_ hm, le_trans (Nat.le_succ _) hgc, hvc⟩
        exact (List.prefix_append _ _).trans (List.prefix_append _ _)

theorem harnessLoop_mono (env : Env) (fuel : Nat) :
    ∀ (contracts : List Contract) (st : OState) (r : RunRes) (st' : OState),
    generateFuzzingHarnessLoop env fuel contracts st = (r, st') →
    st.messages <+: st'.messages ∧ st.genCalls ≤ st'.genCalls ∧
      st.valCalls ≤ st'.valCalls := by
  intro contracts
  induction contracts with
  | nil =>
    intro st r st' h
    simp only [generateFuzzingHarnessLoop] at h
    have hst : st' = st := (congrArg Prod.snd h).symm
    subst hst
    exact ⟨List.prefix_refl _, le_refl _, le_refl _⟩
  | cons c rest ih =>
    intro st r st' h
    rcases hpc : processContract env fuel c st with ⟨r1, st1⟩
    obtain ⟨hm1, hg1, hv1⟩ := processContract_mono env fuel c st r1 st1 hpc
    cases r1 with
    | ok =>
      simp only [generateFuzzingHarnessLoop, hpc] at h
      obtain ⟨hm2, hg2, hv2⟩ := ih st1 r st' h
      exact ⟨hm1.trans hm2, le_trans hg1 hg2, le_trans hv1 hv2⟩
    | err e =>
      simp only [generateFuzzingHarnessLoop, hpc] at h
      have hst : st' = st1 := (congrArg Prod.snd h).symm
      subst hst
      exact ⟨hm1, hg1, hv1⟩
    | fuelOut =>
      simp only [generateFuzzingHarnessLoop, hpc] at h
      have hst : st' = st1 := (congrArg Prod.snd h).symm
      subst hst
      exact ⟨hm1, hg1, hv1⟩

theorem harnessLoop_ok_counts (env : Env) (fuel : Nat) :
    ∀ (contracts : List Contract) (st st' : OState),
    generateFuzzingHarnessLoop env fuel contracts st = (.ok, st') →
    ∃ ks : List Nat, ks.length = contracts.length ∧
      st'.genCalls = st.genCalls + (contracts.length + ks.sum) ∧
      st'.valCalls = st.valCalls + (contracts.length + ks.sum) ∧
      st'.messages.length = st.messages.length +
        2 * (contracts.length + ks.sum) := by
  intro contracts
  induction contracts with
  | nil =>
    intro st st' h
    simp only [generateFuzzingHarnessLoop] at h
    have hst : st' = st := (congrArg Prod.snd h).symm
    subst hst
    exact ⟨[], rfl, by simp, by simp, by simp⟩
  | cons c rest ih =>
    intro st st' h
    rcases hpc : processContract env fuel c st with ⟨r1, st1⟩
    cases r1 with
    | ok =>
      simp only [generateFuzzingHarnessLoop, hpc] at h
      obtain ⟨k, hkg, hkv, hkm⟩ := processContract_ok_counts env fuel c st st1 hpc
      obtain ⟨ks, hlen, hg, hv, hm⟩ := ih st1 st' h
      refine ⟨k :: ks, by simp [hlen], ?_, ?_, ?_⟩ <;>
        simp only [List.sum_cons, List.length_cons] <;> omega
    | err e =>
      simp only [generateFuzzingHarnessLoop, hpc] at h
      exact absurd (congrArg Prod.fst h) (by simp)
    | fuelOut =>
      simp only [generateFuzzingHarnessLoop, hpc] at h
      exact absurd (congrArg Prod.fst h) (by simp)

theorem harnessLoop_err_class (env : Env) (fuel : Nat) :
    ∀ (contracts : List Contract) (st : OState) (e : Err) (st' : OState),
    generateFuzzingHarnessLoop env fuel contracts st = (.err e, st') →
    (∃ p, e = .notFound p) ∨ (∃ m, e = .service m) := by
  intro contracts
  induction contracts with
  | nil =>
    intro st e st' h
    simp only [generateFuzzingHarnessLoop] at h
    exact absurd (congrArg Prod.fst h) (by simp)
  | cons c rest ih =>
    intro st e st' h
    rcases hpc : processContract env fuel c st with ⟨r1, st1⟩
    cases r1 with
    | ok =>
      simp only [generateFuzzingHarnessLoop, hpc] at h
      exact ih st1 e st' h
    | err e1 =>
      simp only [generateFuzzingHarnessLoop, hpc] at h
      have heq := congrArg Prod.fst h
      simp only at heq
      have he : e1 = e := by injection heq
      subst he
      exact processContract_err_class env fuel c st _ st1 hpc
    | fuelOut =>
      simp only [generateFuzzingHarnessLoop, hpc] at h
      exact absurd (congrArg Prod.fst h) (by simp)

/-! ## Scenario lemmas -/

theorem repairLoop_val_fail_step (env : Env) (c : Contract) (fuel : Nat)
    (st : OState) (s r : String) (v : VErr)
    (hv : env.validate st.valCalls (generateTestFilePath c.sourcePath) = (s, some v))
    (hg : env.askGPT st.genCalls
      (st.messages ++ [Message.mk "user" (RegenerateFuzzHarnessPrompt s)]) = .ok r) :
    repairLoop env c (fuel + 1) st = repairLoop env c fuel
      { st with
        fs := fsWrite st.fs (generateTestFilePath c.sourcePath) r,
        messages := (st.messages ++
          [Message.mk "user" (RegenerateFuzzHarnessPrompt s)]) ++
          [Message.mk "system" r],
        genCalls := st.genCalls + 1,
        valCalls := st.valCalls + 1 } := by
  simp only [repairLoop, validateTestFile, hv, processMessageWithGPT4Turbo,
    askGPT4Turbo, hg]

theorem processContract_allOk (env : Env) (fuel : Nat) (c : Contract) (st : OState)
    (hval : ∀ i p, (env.validate i p).2 = none)
    (hgen : ∀ i m, ∃ r, env.askGPT i m = .ok r)
    (hsrc : (fsRead st.fs c.sourcePath).isSome)
    (htst : (fsRead st.fs (generateTestFilePath c.sourcePath)).isSome) :
    ∃ st', processContract env (fuel + 1) c st = (.ok, st') ∧
      st'.genCalls = st.genCalls + 1 ∧ st'.valCalls = st.valCalls + 1 ∧
      st'.messages.length = st.messages.length + 2 ∧
      ∀ p, (fsRead st.fs p).isSome → (fsRead st'.fs p).isSome := by
  obtain ⟨src, h1⟩ := Option.isSome_iff_exists.mp hsrc
  obtain ⟨tst, h2⟩ := Option.isSome_iff_exists.mp htst
  obtain ⟨r, hg⟩ := hgen st.genCalls (st.messages ++ [generationMessage c src tst])
  rw [processContract_genOk env (fuel + 1) c st src tst r h1 h2 hg,
    repairLoop_val_ok env c fuel _ (hval _ _)]
  refine ⟨_, rfl, rfl, rfl, ?_, ?_⟩
  · simp
  · intro p hp
    simpa using fsWrite_mono st.fs _ r p hp

theorem harnessLoop_allOk (env : Env) (fuel : Nat)
    (hval : ∀ i p, (env.validate i p).2 = none)
    (hgen : ∀ i m, ∃ r, env.askGPT i m = .ok r) :
    ∀ (contracts : List Contract) (st : OState),
    (∀ c ∈ contracts, (fsRead st.fs c.sourcePath).isSome) →
    (∀ c ∈ contracts, (fsRead st.fs (generateTestFilePath c.sourcePath)).isSome) →
    ∃ st', generateFuzzingHarnessLoop env (fuel + 1) contracts st = (.ok, st') ∧
      st'.genCalls = st.genCalls + contracts.length ∧
      st'.valCalls = st.valCalls + contracts.length := by
  intro contracts
  induction contracts with
  | nil =>
    intro st _ _
    exact ⟨st, by simp only [generateFuzzingHarnessLoop], by simp, by simp⟩
  | cons c rest ih =>
    intro st hs ht
    obtain ⟨st1, hpc, hg1, hv1, hm1, hfs1⟩ :=
      processContract_allOk env fuel c st hval hgen (hs c (by simp)) (ht c (by simp))
    obtain ⟨st', hloop, hg2, hv2⟩ := ih st1
      (fun c' hc' => hfs1 _ (hs c' (List.mem_cons_of_mem _ hc')))
      (fun c' hc' => hfs1 _ (ht c' (List.mem_cons_of_mem _ hc')))
    refine ⟨st', ?_, ?_, ?_⟩
    · simp only [generateFuzzingHarnessLoop, hpc]
      exact hloop
    · simp only [List.length_cons]; omega
    · simp only [List.length_cons]; omega

/-! ## Claim C4 -/

/-- C4: with a validator that fails exactly twice and then succeeds, the
orchestrator issues exactly 1 generation request, 2 repair requests (3
generative calls in total) and 3 validator invocations before the unit is done;
and with a validator that always succeeds, every unit of a run completes with
exactly one generative call and one validator call. -/
theorem C4_exact_call_counts :
    (∀ (env : Env) (fuel : Nat) (c : Contract) (st : OState)
      (resp : Nat → List Message → String) (src tst s0 s1 s2 : String) (e0 e1 : VErr),
      (∀ i m, env.askGPT i m = .ok (resp i m)) →
      fsRead st.fs c.sourcePath = some src →
      fsRead st.fs (generateTestFilePath c.sourcePath) = some tst →
      env.validate st.valCalls (generateTestFilePath c.sourcePath) = (s0, some e0) →
      env.validate (st.valCalls + 1) (generateTestFilePath c.sourcePath) =
        (s1, some e1) →
      env.validate (st.valCalls + 1 + 1) (generateTestFilePath c.sourcePath) =
        (s2, none) →
      ∃ st', processContract env (fuel + 3) c st = (.ok, st') ∧
        st'.genCalls = st.genCalls + 3 ∧ st'.valCalls = st.valCalls + 3) ∧
    (∀ (env : Env) (fuel : Nat) (contracts : List Contract) (st : OState),
      (∀ i p, (env.validate i p).2 = none) →
      (∀ i m, ∃ r, env.askGPT i m = .ok r) →
      (∀ c ∈ contracts, (fsRead st.fs c.sourcePath).isSome) →
      ∃ st', GenerateFuzzingHarness env (fuel + 1) contracts st = (.ok, st') ∧
        st'.genCalls = st.genCalls + contracts.length ∧
        st'.valCalls = st.valCalls + contracts.length) := by
  constructor
  · intro env fuel c st resp src tst s0 s1 s2 e0 e1 hgen h1 h2 hv0 hv1 hv2
    simp only [processContract, h1, h2, askGPT4Turbo, hgen, repairLoop,
      validateTestFile, hv0, hv1, hv2, processMessageWithGPT4Turbo]
    exact ⟨_, rfl, rfl, rfl⟩
  · intro env fuel contracts st hval hgen hsrc
    rw [GenerateFuzzingHarness]
    exact harnessLoop_allOk env fuel hval hgen contracts _
      (fun c hc => createTestFiles_mono contracts st.fs c.sourcePath (hsrc c hc))
      (fun c hc => createTestFiles_covers contracts st.fs c hc)

/-- Witness for C4 at concrete inputs: the fail-twice stub gives 3 generative
and 3 validator calls for one unit; the always-succeed stub completes a
one-unit run with one generative and one validator call. -/
theorem C4_witness :
    (∃ st', processContract envFailTwice 3 cFoo
        (initState [("d/Foo.sol", "sF"), ("d/Foo_fuzz.sol", "")]) = (.ok, st') ∧
      st'.genCalls = 3 ∧ st'.valCalls = 3) ∧
    (∃ st', GenerateFuzzingHarness envAllOk 1 [cFoo] (initState fs3) = (.ok, st') ∧
      st'.genCalls = 1 ∧ st'.valCalls = 1) := by
  constructor
  · exact C4_exact_call_counts.1 envFailTwice 0 cFoo
      (initState [("d/Foo.sol", "sF"), ("d/Foo_fuzz.sol", "")])
      (fun _ _ => "R") "sF" "" "compile error" "compile error" "" (.exitError "exit status 1")
      (.exitError "exit status 1") (fun _ _ => rfl) rfl rfl rfl rfl rfl
  · exact C4_exact_call_counts.2 envAllOk 0 [cFoo] (initState fs3)
      (fun _ _ => rfl) (fun _ _ => ⟨"R", rfl⟩)
      (fun c hc => by simp only [List.mem_singleton] at hc; subst hc; decide)

/-! ## Claim C3: corrected history-length formula -/

/-- Counterexample to C3 as stated: a completed run over two source units with
zero repair cycles each (two validator calls in total) ends with history length
9 = seed_count + 2 * (N + sum k_i) = 5 + 4, not seed_count + 2 * (1 + sum k_i)
= 7 as the claimed formula requires. -/
theorem C3_counterexample :
    (GenerateFuzzingHarness envAllOk 1 [cFoo, cBar] (initState fs3)).1 = .ok ∧
    (GenerateFuzzingHarness envAllOk 1 [cFoo, cBar] (initState fs3)).2.valCalls = 2 ∧
    TrainingPrompts.length = 5 ∧
    (GenerateFuzzingHarness envAllOk 1 [cFoo, cBar] (initState fs3)).2.messages.length = 9 ∧
    ¬((GenerateFuzzingHarness envAllOk 1 [cFoo, cBar]
        (initState fs3)).2.messages.length = 5 + 2 * (1 + 0)) := by
  refine ⟨by decide, by decide, by decide, by decide, by decide⟩

/-- C3 (amended): for every run over `N` source units that completes, there are
per-unit repair counts `ks = [k_1, ..., k_N]` such that the final history
length equals `seed_count + 2 * (N + sum k_i)` — one request/response pair per
generation and one per repair cycle, per unit — the generative and validator
call counts both equal `N + sum k_i`, and the seeded history is an unmodified
prefix of the final history (no message is ever removed). -/
theorem C3_history_length (env : Env) (fuel : Nat) (contracts : List Contract)
    (fs : FS) (st' : OState)
    (h : GenerateFuzzingHarness env fuel contracts (initState fs) = (.ok, st')) :
    ∃ ks : List Nat, ks.length = contracts.length ∧
      st'.messages.length =
        TrainingPrompts.length + 2 * (contracts.length + ks.sum) ∧
      st'.genCalls = contracts.length + ks.sum ∧
      st'.valCalls = contracts.length + ks.sum ∧
      TrainingPrompts <+: st'.messages := by
  rw [GenerateFuzzingHarness] at h
  obtain ⟨ks, hlen, hg, hv, hm⟩ := harnessLoop_ok_counts env fuel contracts _ st' h
  obtain ⟨hpre, -, -⟩ := harnessLoop_mono env fuel contracts _ _ _ h
  simp only [initState] at hg hv hm hpre
  exact ⟨ks, hlen, by simpa using hm, by simpa using hg, by simpa using hv, hpre⟩

/-- Witness for C3 (amended) at a concrete completed run. -/
theorem C3_witness :
    ∃ ks : List Nat, ks.length = [cFoo, cBar].length ∧
      (GenerateFuzzingHarness envAllOk 1 [cFoo, cBar]
        (initState fs3)).2.messages.length =
        TrainingPrompts.length + 2 * ([cFoo, cBar].length + ks.sum) ∧
      (GenerateFuzzingHarness envAllOk 1 [cFoo, cBar]
        (initState fs3)).2.genCalls = [cFoo, cBar].length + ks.sum ∧
      (GenerateFuzzingHarness envAllOk 1 [cFoo, cBar]
        (initState fs3)).2.valCalls = [cFoo, cBar].length + ks.sum ∧
      TrainingPrompts <+:
        (GenerateFuzzingHarness envAllOk 1 [cFoo, cBar]
          (initState fs3)).2.messages :=
  C3_history_length envAllOk 1 [cFoo, cBar] fs3
    (GenerateFuzzingHarness envAllOk 1 [cFoo, cBar] (initState fs3)).2
    (by decide)

/-! ## Claim C8 -/

/-- C8: a validation diagnostic is never returned to the caller as a terminal
error of the run: a non-nil error result of the orchestrator originates only
from artifact reads (`notFound`) or the generative client (`service`), never
from the validator; and the repair loop is exited successfully only by a
validator invocation that reports success. -/
theorem C8_diagnostic_never_terminal :
    (∀ (env : Env) (fuel : Nat) (contracts : List Contract) (st : OState)
      (e : Err) (st' : OState),
      GenerateFuzzingHarness env fuel contracts st = (.err e, st') →
      (∃ p, e = .notFound p) ∨ (∃ m, e = .service m)) ∧
    (∀ (env : Env) (c : Contract) (fuel : Nat) (st st' : OState),
      repairLoop env c fuel st = (.ok, st') →
      ∃ j, st'.valCalls = j + 1 ∧
        (env.validate j (generateTestFilePath c.sourcePath)).2 = none) := by
  constructor
  · intro env fuel contracts st e st' h
    rw [GenerateFuzzingHarness] at h
    exact harnessLoop_err_class env fuel contracts _ e st' h
  · intro env c fuel st st' h
    exact repairLoop_ok_lastVal env c fuel st st' h

/-- Witness for C8 at concrete runs: a run aborted by a generative failure has
a `service` error, and a successful repair-loop exit is justified by a
successful validator call. -/
theorem C8_witness :
    ((∃ p, Err.service "boom" = .notFound p) ∨
      (∃ m, Err.service "boom" = .service m)) ∧
    (∃ j, (repairLoop envAllOk cFoo 1 (initState fs3)).2.valCalls = j + 1 ∧
      (envAllOk.validate j (generateTestFilePath cFoo.sourcePath)).2 = none) := by
  constructor
  · exact C8_diagnostic_never_terminal.1 envSecondFails 1 [cFoo, cBar, cBaz]
      (initState fs3) (.service "boom")
      (GenerateFuzzingHarness envSecondFails 1 [cFoo, cBar, cBaz] (initState fs3)).2
      (by decide)
  · exact C8_diagnostic_never_terminal.2 envAllOk cFoo 1 (initState fs3)
      (repairLoop envAllOk cFoo 1 (initState fs3)).2 (by decide)

/-! ## Claim C1: corrected — validator spawn failure triggers repair, not abort -/

/-- Counterexample to C1 as stated: with a validator whose first invocation
reports that the tool itself could not be spawned (and which succeeds
afterwards), the run does not abort and no error is propagated to the caller —
instead a repair cycle is triggered (a second generative call is made) and the
run completes successfully. -/
theorem C1_counterexample :
    (GenerateFuzzingHarness envSpawnFail 2 [cFoo]
      (initState [("d/Foo.sol", "sF")])).1 = .ok ∧
    (GenerateFuzzingHarness envSpawnFail 2 [cFoo]
      (initState [("d/Foo.sol", "sF")])).2.genCalls = 2 ∧
    (GenerateFuzzingHarness envSpawnFail 2 [cFoo]
      (initState [("d/Foo.sol", "sF")])).2.valCalls = 2 := by
  refine ⟨by decide, by decide, by decide⟩

/-- C1 (amended): an error from the validator invocation indicating the tool
could not be spawned is treated exactly like a validation diagnostic: the
orchestrator issues a repair request built from the captured standard error
(the generative call counter strictly increases and the repair request is
appended to the history), and the validator error itself is never propagated
to the caller as the run result. -/
theorem C1_spawn_error_repairs (env : Env) (c : Contract) (fuel : Nat)
    (st : OState) (s m : String)
    (hv : env.validate st.valCalls (generateTestFilePath c.sourcePath) =
      (s, some (.spawnError m))) :
    st.genCalls + 1 ≤ (repairLoop env c (fuel + 1) st).2.genCalls ∧
    (st.messages ++ [Message.mk "user" (RegenerateFuzzHarnessPrompt s)]) <+:
      (repairLoop env c (fuel + 1) st).2.messages ∧
    ∀ e, (repairLoop env c (fuel + 1) st).1 ≠ .err (.validatorErr e) := by
  rcases processMessage_cases env { st with valCalls := st.valCalls + 1 }
    ⟨"user", RegenerateFuzzHarnessPrompt s⟩ with ⟨e1, hpm⟩ | ⟨resp, hpm⟩
  · simp only [repairLoop, validateTestFile, hv, hpm]
    exact ⟨Nat.le_refl _, List.prefix_refl _, fun e => by simp⟩
  · simp only [repairLoop, validateTestFile, hv, hpm]
    rcases hrl : repairLoop env c fuel
      { st with
        messages := (st.messages ++
          [Message.mk "user" (RegenerateFuzzHarnessPrompt s)]) ++
          [Message.mk "system" resp],
        genCalls := st.genCalls + 1,
        valCalls := st.valCalls + 1,
        fs := fsWrite st.fs (generateTestFilePath c.sourcePath) resp }
      with ⟨r2, st2⟩
    obtain ⟨hm2, hg2, hv2⟩ := repairLoop_mono env c fuel _ _ _ hrl
    refine ⟨le_trans (by simp) hg2, List.IsPrefix.trans ?_ hm2, ?_⟩
    · exact List.prefix_append _ _
    · intro e he
      simp only at he
      subst he
      obtain ⟨m2, hm2e⟩ := repairLoop_err_service env c fuel _ _ _ hrl
      exact Err.noConfusion hm2e

/-- Witness for C1 (amended) at the concrete spawn-failure stub. -/
theorem C1_witness :
    (initState [("d/Foo.sol", "sF")]).genCalls + 1 ≤
      (repairLoop envSpawnFail cFoo 2 (initState [("d/Foo.sol", "sF")])).2.genCalls ∧
    ((initState [("d/Foo.sol", "sF")]).messages ++
      [Message.mk "user" (RegenerateFuzzHarnessPrompt "")]) <+:
      (repairLoop envSpawnFail cFoo 2 (initState [("d/Foo.sol", "sF")])).2.messages ∧
    ∀ e, (repairLoop envSpawnFail cFoo 2 (initState [("d/Foo.sol", "sF")])).1 ≠
      .err (.validatorErr e) :=
  C1_spawn_error_repairs envSpawnFail cFoo 1 (initState [("d/Foo.sol", "sF")])
    "" "exec: crytic-compile not found" rfl

/-! ## Claim C2: corrected — the ensure pass touches all units before the abort -/

/-- Counterexample to C2 as stated: with a generative client that errors on the
second source unit, the run does abort — but the artifact store has already
been invoked for the third (subsequent) unit: `createTestFiles` runs for every
unit before any generation, so the third unit\x27s missing artifact exists
(empty) after the aborted run. -/
theorem C2_counterexample :
    (GenerateFuzzingHarness envSecondFails 1 [cFoo, cBar, cBaz]
      (initState fs3)).1 = .err (.service "boom") ∧
    fsRead (initState fs3).fs (generateTestFilePath cBaz.sourcePath) = none ∧
    fsRead (GenerateFuzzingHarness envSecondFails 1 [cFoo, cBar, cBaz]
      (initState fs3)).2.fs (generateTestFilePath cBaz.sourcePath) = some "" := by
  refine ⟨by decide, by decide, by decide⟩

/-- C2 (amended): if the generative client fails on the second source unit (the
first unit needing no repair), the run aborts propagating that error; after the
abort the generative call count is 2 and the validator ran only once (for the
first unit), so no generative, persist-write or validator action happened for
any subsequent unit; the first unit\x27s artifact retains the content persisted
before the abort; but the up-front ensure pass has already created a missing
artifact of a subsequent unit as an empty file. -/
theorem C2_fatal_short_circuit (env : Env) (fuel : Nat) (c1 c2 c3 : Contract)
    (st : OState) (r0 e s0 : String)
    (hgen0 : ∀ m, env.askGPT st.genCalls m = .ok r0)
    (hgen1 : ∀ m, env.askGPT (st.genCalls + 1) m = .error e)
    (hval0 : ∀ p, env.validate st.valCalls p = (s0, none))
    (hsrc1 : (fsRead st.fs c1.sourcePath).isSome)
    (hsrc2 : (fsRead st.fs c2.sourcePath).isSome) :
    ∃ st', GenerateFuzzingHarness env (fuel + 1) [c1, c2, c3] st =
        (.err (.service e), st') ∧
      st'.genCalls = st.genCalls + 2 ∧
      st'.valCalls = st.valCalls + 1 ∧
      fsRead st'.fs (generateTestFilePath c1.sourcePath) = some r0 ∧
      (fsRead st.fs (generateTestFilePath c3.sourcePath) = none →
        generateTestFilePath c3.sourcePath ≠ generateTestFilePath c1.sourcePath →
        generateTestFilePath c3.sourcePath ≠ generateTestFilePath c2.sourcePath →
        fsRead st'.fs (generateTestFilePath c3.sourcePath) = some "") := by
  obtain ⟨src1, h1⟩ := Option.isSome_iff_exists.mp
    (createTestFiles_mono [c1, c2, c3] st.fs c1.sourcePath hsrc1)
  obtain ⟨t1, h2⟩ := Option.isSome_iff_exists.mp
    (createTestFiles_covers [c1, c2, c3] st.fs c1 (by simp))
  obtain ⟨src2, h3⟩ := Option.isSome_iff_exists.mp
    (fsWrite_mono (createTestFiles [c1, c2, c3] st.fs)
      (generateTestFilePath c1.sourcePath) r0 c2.sourcePath
      (createTestFiles_mono [c1, c2, c3] st.fs c2.sourcePath hsrc2))
  obtain ⟨t2, h4⟩ := Option.isSome_iff_exists.mp
    (fsWrite_mono (createTestFiles [c1, c2, c3] st.fs)
      (generateTestFilePath c1.sourcePath) r0 (generateTestFilePath c2.sourcePath)
      (createTestFiles_covers [c1, c2, c3] st.fs c2 (by simp)))
  have step1 : processContract env (fuel + 1) c1
      { st with fs := createTestFiles [c1, c2, c3] st.fs } = (.ok,
      { st with
        fs := fsWrite (createTestFiles [c1, c2, c3] st.fs)
          (generateTestFilePath c1.sourcePath) r0,
        messages := (st.messages ++ [generationMessage c1 src1 t1]) ++
          [Message.mk "system" r0],
        genCalls := st.genCalls + 1,
        valCalls := st.valCalls + 1 }) := by
    rw [processContract_genOk env (fuel + 1) c1
      { st with fs := createTestFiles [c1, c2, c3] st.fs } src1 t1 r0 h1 h2
      (hgen0 _)]
    exact repairLoop_val_ok env c1 fuel _ (by rw [hval0])
  have step2 : processContract env (fuel + 1) c2
      { st with
        fs := fsWrite (createTestFiles [c1, c2, c3] st.fs)
          (generateTestFilePath c1.sourcePath) r0,
        messages := (st.messages ++ [generationMessage c1 src1 t1]) ++
          [Message.mk "system" r0],
        genCalls := st.genCalls + 1,
        valCalls := st.valCalls + 1 } = (.err (.service e),
      { st with
        fs := fsWrite (createTestFiles [c1, c2, c3] st.fs)
          (generateTestFilePath c1.sourcePath) r0,
        messages := ((st.messages ++ [generationMessage c1 src1 t1]) ++
          [Message.mk "system" r0]) ++ [generationMessage c2 src2 t2],
        genCalls := st.genCalls + 1 + 1,
        valCalls := st.valCalls + 1 }) :=
    processContract_genErr env (fuel + 1) c2 _ src2 t2 e h3 h4 (hgen1 _)
  refine ⟨{ st with
      fs := fsWrite (createTestFiles [c1, c2, c3] st.fs)
        (generateTestFilePath c1.sourcePath) r0,
      messages := ((st.messages ++ [generationMessage c1 src1 t1]) ++
        [Message.mk "system" r0]) ++ [generationMessage c2 src2 t2],
      genCalls := st.genCalls + 1 + 1,
      valCalls := st.valCalls + 1 }, ?_, rfl, rfl, fsRead_write_self _ _ _, ?_⟩
  · rw [GenerateFuzzingHarness]
    simp only [generateFuzzingHarnessLoop, step1, step2]
  · intro h3n hne1 hne2
    show fsRead (fsWrite (createTestFiles [c1, c2, c3] st.fs)
      (generateTestFilePath c1.sourcePath) r0)
      (generateTestFilePath c3.sourcePath) = some ""
    rw [fsRead_write_ne _ _ _ _ hne1]
    show fsRead (ensureExists (ensureExists (ensureExists st.fs
      (generateTestFilePath c1.sourcePath)) (generateTestFilePath c2.sourcePath))
      (generateTestFilePath c3.sourcePath))
      (generateTestFilePath c3.sourcePath) = some ""
    rw [ensure_read_self, ensure_read_ne _ _ _ hne2, ensure_read_ne _ _ _ hne1, h3n]
    rfl

/-- Witness for C2 (amended) at the concrete second-unit-fails stub. -/
theorem C2_witness :
    ∃ st', GenerateFuzzingHarness envSecondFails 1 [cFoo, cBar, cBaz]
        (initState fs3) = (.err (.service "boom"), st') ∧
      st'.genCalls = (initState fs3).genCalls + 2 ∧
      st'.valCalls = (initState fs3).valCalls + 1 ∧
      fsRead st'.fs (generateTestFilePath cFoo.sourcePath) = some "R0" ∧
      (fsRead (initState fs3).fs (generateTestFilePath cBaz.sourcePath) = none →
        generateTestFilePath cBaz.sourcePath ≠ generateTestFilePath cFoo.sourcePath →
        generateTestFilePath cBaz.sourcePath ≠ generateTestFilePath cBar.sourcePath →
        fsRead st'.fs (generateTestFilePath cBaz.sourcePath) = some "") :=
  C2_fatal_short_circuit envSecondFails 0 cFoo cBar cBaz (initState fs3)
    "R0" "boom" "" (fun _ => rfl) (fun _ => rfl) (fun _ => rfl)
    (by decide) (by decide)

/-! ## Claim C10 -/

/-- C10: for every contract name `n`, the test construct name passed to the
generation prompt is exactly `n` with the fixed suffix `Test` appended,
deterministically and with no other transformation: `generateTestContractName`
is plain suffixing, and the generation request message embeds exactly
`c.name ++ "Test"` as the test contract name. -/
theorem C10_test_name_is_suffixed :
    (∀ n : String, generateTestContractName n = n ++ "Test") ∧
    (∀ (c : Contract) (src tst : String),
      (generationMessage c src tst).content =
        GenerateFuzzHarnessPrompt c.sourcePath (generateTestFilePath c.sourcePath)
          src tst c.name (c.name ++ "Test")) :=
  ⟨fun _ => rfl, fun _ _ _ => rfl⟩

/-! ## Path lemmas for claim C6 -/

theorem goExtAux_suffix : ∀ (rl acc : List Char),
    goExtAux rl acc = [] ∨ goExtAux rl acc <:+ (rl.reverse ++ acc) := by
  intro rl
  induction rl with
  | nil => intro acc; exact .inl rfl
  | cons c rest ih =>
    intro acc
    by_cases hc : c = '/'
    · exact .inl (by simp [goExtAux, hc])
    · by_cases hd : c = '.'
      · right
        subst hd
        simp only [goExtAux, if_neg hc, if_pos rfl]
        exact ⟨rest.reverse, by simp⟩
      · rcases ih (c :: acc) with h | h
        · exact .inl (by simp [goExtAux, hc, hd, h])
        · right
          simp only [goExtAux, if_neg hc, if_neg hd]
          simpa [List.append_assoc] using h

theorem goExt_suffix (l : List Char) : goExt l <:+ l := by
  rcases goExtAux_suffix l.reverse [] with h | h
  · rw [goExt, h]; exact ⟨l, by simp⟩
  · rw [goExt]; simpa using h

theorem goTrimSuffix_goExt_append (l : List Char) :
    goTrimSuffix l (goExt l) ++ goExt l = l := by
  have hs := goExt_suffix l
  generalize hE : goExt l = E at hs ⊢
  rw [goTrimSuffix, if_pos hs]
  obtain ⟨pre, hpre⟩ := hs
  rw [← hpre]
  simp [List.take_left]

theorem goTrimSuffix_subset (l suf : List Char) :
    ∀ x ∈ goTrimSuffix l suf, x ∈ l := by
  intro x hx
  rw [goTrimSuffix] at hx
  split at hx
  · exact List.take_subset _ _ hx
  · exact hx

theorem splitSlash_ne_nil (l : List Char) : splitSlash l ≠ [] := by
  cases l with
  | nil => simp [splitSlash]
  | cons c rest =>
    simp only [splitSlash]
    split <;> simp

theorem splitSlash_append_slash : ∀ (xs ys : List Char),
    splitSlash (xs ++ '/' :: ys) = splitSlash xs ++ splitSlash ys := by
  intro xs ys
  induction xs with
  | nil => simp [splitSlash]
  | cons c xs ih =>
    by_cases hc : c = '/'
    · subst hc
      simp [splitSlash, ih]
    · simp only [List.cons_append, splitSlash, if_neg hc, ih]
      cases hsx : splitSlash xs with
      | nil => exact absurd hsx (splitSlash_ne_nil xs)
      | cons h t => simp [hsx, ih]

theorem splitSlash_no_slash : ∀ (l : List Char), '/' ∉ l → splitSlash l = [l] := by
  intro l
  induction l with
  | nil => intro _; rfl
  | cons c rest ih =>
    intro h
    have hc : c ≠ '/' := fun hx => h (hx ▸ List.mem_cons_self c rest)
    have hr : '/' ∉ rest := fun hx => h (List.mem_cons_of_mem c hx)
    simp [splitSlash, hc, ih hr]

theorem joinSlash_append_last : ∀ (cs : List (List Char)) (c : List Char),
    cs ≠ [] → joinSlash (cs ++ [c]) = joinSlash cs ++ '/' :: c := by
  intro cs
  induction cs with
  | nil => intro c h; exact absurd rfl h
  | cons d cs ih =>
    intro c _
    cases cs with
    | nil => rfl
    | cons d2 cs2 =>
      have ih' := ih c (by simp)
      simp only [List.cons_append, joinSlash] at ih' ⊢
      simp [ih', List.append_assoc]

theorem splitSlash_joinSlash : ∀ (comps : List (List Char)), comps ≠ [] →
    (∀ x ∈ comps, '/' ∉ x) → splitSlash (joinSlash comps) = comps := by
  intro comps
  induction comps with
  | nil => intro h _; exact absurd rfl h
  | cons c cs ih =>
    intro _ hns
    cases cs with
    | nil => exact splitSlash_no_slash c (hns c (by simp))
    | cons d cs2 =>
      show splitSlash (c ++ '/' :: joinSlash (d :: cs2)) = c :: d :: cs2
      rw [splitSlash_append_slash, splitSlash_no_slash c (hns c (by simp)),
        ih (by simp) (fun x hx => hns x (List.mem_cons_of_mem c hx))]
      rfl

theorem cleanStep_normal (r : Bool) (stack : List (List Char)) (c : List Char)
    (h : normalComp c) : cleanStep r stack c = c :: stack := by
  obtain ⟨h1, _, h3, h4⟩ := h
  unfold cleanStep
  rw [if_neg (by simp [h1, h3]), if_neg h4]

theorem foldl_cleanStep_normal (r : Bool) : ∀ (comps : List (List Char))
    (S : List (List Char)), (∀ x ∈ comps, normalComp x) →
    comps.foldl (cleanStep r) S = comps.reverse ++ S := by
  intro comps
  induction comps with
  | nil => intro S _; rfl
  | cons c cs ih =>
    intro S hx
    simp only [List.foldl_cons, List.reverse_cons, List.append_assoc]
    rw [cleanStep_normal r S c (hx c (by simp)),
      ih (c :: S) (fun x h => hx x (List.mem_cons_of_mem c h))]
    simp

theorem goSplit_no_slash (l : List Char) (h : '/' ∉ l) : goSplit l = ([], l) := by
  cases l with
  | nil => rfl
  | cons c rest =>
    have hc : c ≠ '/' := fun hx => h (hx ▸ List.mem_cons_self c rest)
    have hr : '/' ∉ rest := fun hx => h (List.mem_cons_of_mem c hx)
    simp [goSplit, hr, hc]

theorem goSplit_append (file : List Char) (hf : '/' ∉ file) :
    ∀ (x : List Char), goSplit (x ++ '/' :: file) = (x ++ ['/'], file) := by
  intro x
  induction x with
  | nil =>
    simp [goSplit, hf]
  | cons c x ih =>
    have hm : '/' ∈ x ++ '/' :: file :=
      List.mem_append_right x (List.mem_cons_self '/' file)
    simp [goSplit, hm, ih]

theorem cleanStep_skip (r : Bool) (S : List (List Char)) : cleanStep r S [] = S := by
  unfold cleanStep
  rw [if_pos (Or.inl rfl)]

theorem testFilename_normal (file : List Char) (h : '/' ∉ file) :
    normalComp (goTrimSuffix file (goExt file) ++ "_fuzz".data ++ goExt file) := by
  have h5 : ("_fuzz".data).length = 5 := by decide
  have hltf : (goTrimSuffix file (goExt file) ++ "_fuzz".data ++ goExt file).length =
      (goTrimSuffix file (goExt file)).length + 5 + (goExt file).length := by
    simp only [List.length_append, h5]
  refine ⟨?_, ?_, ?_, ?_⟩
  · intro heq
    rw [heq] at hltf
    simp only [List.length_nil] at hltf
    omega
  · intro hx
    rcases List.mem_append.mp hx with hx | hx
    · rcases List.mem_append.mp hx with hx | hx
      · exact h (goTrimSuffix_subset _ _ _ hx)
      · exact absurd hx (by decide)
    · exact h ((goExt_suffix file).subset hx)
  · intro heq
    rw [heq] at hltf
    simp only [List.length_cons, List.length_nil] at hltf
    omega
  · intro heq
    rw [heq] at hltf
    simp only [List.length_cons, List.length_nil] at hltf
    omega

theorem goClean_normal_single (c : List Char) (h : normalComp c) : goClean c = c := by
  obtain ⟨h1, h2, h3, h4⟩ := h
  have hhead : ¬(c.head? = some '/') := by
    cases c with
    | nil => simp
    | cons a as =>
      simp only [List.head?, Option.some.injEq]
      intro hx
      exact h2 (hx ▸ List.mem_cons_self a as)
  unfold goClean
  rw [if_neg h1]
  simp only [splitSlash_no_slash c h2, List.foldl_cons, List.foldl_nil]
  rw [cleanStep_normal _ _ _ ⟨h1, h2, h3, h4⟩]
  simp [hhead, h1, joinSlash]

theorem goClean_root_double (tf : List Char) (h : normalComp tf) :
    goClean ('/' :: '/' :: tf) = '/' :: tf := by
  have hsp : splitSlash ('/' :: '/' :: tf) = [] :: [] :: [tf] := by
    simp [splitSlash, splitSlash_no_slash tf h.2.1]
  unfold goClean
  rw [if_neg (by simp)]
  rw [hsp]
  simp only [List.foldl_cons, List.foldl_nil, cleanStep_skip]
  rw [cleanStep_normal _ _ tf h]
  simp [joinSlash]

theorem foldl_cleanStep_dir (r : Bool) (cs : List (List Char)) (tf : List Char)
    (hc : ∀ x ∈ cs, normalComp x) (htf : normalComp tf) :
    (cs ++ [[], tf]).foldl (cleanStep r) [] = tf :: cs.reverse := by
  rw [List.foldl_append, foldl_cleanStep_normal r cs [] hc]
  simp only [List.foldl_cons, List.foldl_nil, List.append_nil, cleanStep_skip]
  rw [cleanStep_normal r _ tf htf]

theorem goClean_dir (root : Bool) (c₁ : List Char) (rest : List (List Char))
    (tf : List Char) (hc : ∀ x ∈ c₁ :: rest, normalComp x) (htf : normalComp tf) :
    goClean (pathOf root (c₁ :: rest) ++ '/' :: '/' :: tf) =
      pathOf root ((c₁ :: rest) ++ [tf]) := by
  have hns : ∀ x ∈ c₁ :: rest, '/' ∉ x := fun x hx => (hc x hx).2.1
  have hsp0 : splitSlash (joinSlash (c₁ :: rest) ++ '/' :: ('/' :: tf)) =
      (c₁ :: rest) ++ [[], tf] := by
    rw [splitSlash_append_slash, splitSlash_joinSlash _ (by simp) hns]
    simp [splitSlash, splitSlash_no_slash tf htf.2.1]
  obtain ⟨a, as, hca⟩ : ∃ a as, c₁ = a :: as := by
    cases hcc : c₁ with
    | nil => exact absurd hcc (hc c₁ (by simp)).1
    | cons a as => exact ⟨a, as, rfl⟩
  have hane : a ≠ '/' := by
    intro hx
    exact hns c₁ (by simp) (by rw [hca, hx]; exact List.mem_cons_self _ _)
  have hhead : (joinSlash (c₁ :: rest)).head? = some a := by
    subst hca
    cases rest <;> simp [joinSlash]
  cases root with
  | true =>
    show goClean ('/' :: (joinSlash (c₁ :: rest) ++ '/' :: ('/' :: tf))) =
      '/' :: joinSlash ((c₁ :: rest) ++ [tf])
    unfold goClean
    rw [if_neg (by simp)]
    have hsp : splitSlash ('/' :: (joinSlash (c₁ :: rest) ++ '/' :: ('/' :: tf))) =
        [] :: ((c₁ :: rest) ++ [[], tf]) := by
      simp [splitSlash, hsp0]
    rw [hsp]
    simp only [List.foldl_cons, cleanStep_skip]
    rw [foldl_cleanStep_dir _ _ tf hc htf]
    simp [joinSlash]
  | false =>
    show goClean (joinSlash (c₁ :: rest) ++ '/' :: ('/' :: tf)) =
      joinSlash ((c₁ :: rest) ++ [tf])
    have hne : joinSlash (c₁ :: rest) ++ '/' :: ('/' :: tf) ≠ [] := by simp
    have hhead2 : (joinSlash (c₁ :: rest) ++ '/' :: ('/' :: tf)).head? = some a := by
      rw [hca] at hhead ⊢
      cases rest <;> simp_all [joinSlash]
    have hjoin_ne : joinSlash ((c₁ :: rest) ++ [tf]) ≠ [] := by
      rw [hca]
      cases rest <;> simp [joinSlash, List.cons_append]
    simp only [List.cons_append] at hjoin_ne
    unfold goClean
    rw [if_neg hne, hsp0]
    have hst := foldl_cleanStep_dir
      (decide ((joinSlash (c₁ :: rest) ++ '/' :: '/' :: tf).head? = some '/'))
      (c₁ :: rest) tf hc htf
    simp only [List.cons_append] at hst
    simp only [List.cons_append]
    rw [hst, hhead2]
    simp [hane, hjoin_ne]

theorem generateTestFilePathL_eq (p : List Char) :
    generateTestFilePathL p =
      goJoin (goSplit p).1 (goTrimSuffix (goSplit p).2 (goExt (goSplit p).2) ++
        "_fuzz".data ++ goExt (goSplit p).2) := rfl

/-! ## Claim C6: corrected — the directory prefix is normalized by Join/Clean -/

/-- Counterexample to C6 as stated: for the path `./Foo.sol` the derived
companion path is `Foo_fuzz.sol` — the `filepath.Join` step cleans the
directory prefix, so the result does not differ from the input only by the
inserted `_fuzz` suffix (that would be `./Foo_fuzz.sol`). -/
theorem C6_counterexample :
    generateTestFilePath "./Foo.sol" = "Foo_fuzz.sol" ∧
    generateTestFilePath "./Foo.sol" ≠ "./Foo_fuzz.sol" := by
  refine ⟨by decide, by decide⟩

/-- C6 (amended): the derived companion path is deterministic for every path;
the final path element always splits as base ++ extension; and for every path
in canonical form — an optionally rooted sequence of ordinary components
followed by a separator-free file name — the derived path keeps the directory
components and the root, keeps the extension, and differs only by `_fuzz`
inserted at the end of the base file name. For non-canonical paths the
directory prefix is additionally normalized by the path cleaning inside
`filepath.Join`. -/
theorem C6_derive_canonical :
    (∀ p : String, generateTestFilePath p = generateTestFilePath p) ∧
    (∀ file : List Char, goTrimSuffix file (goExt file) ++ goExt file = file) ∧
    (∀ (root : Bool) (comps : List (List Char)) (file : List Char),
      (∀ x ∈ comps, normalComp x) → '/' ∉ file →
      generateTestFilePathL (pathOf root (comps ++ [file])) =
        pathOf root (comps ++
          [goTrimSuffix file (goExt file) ++ "_fuzz".data ++ goExt file])) := by
  refine ⟨fun _ => rfl, goTrimSuffix_goExt_append, ?_⟩
  intro root comps file hc hf
  have htf := testFilename_normal file hf
  cases comps with
  | nil =>
    cases root with
    | false =>
      show generateTestFilePathL file =
        goTrimSuffix file (goExt file) ++ "_fuzz".data ++ goExt file
      rw [generateTestFilePathL_eq, goSplit_no_slash file hf]
      show goJoin [] (goTrimSuffix file (goExt file) ++ "_fuzz".data ++ goExt file) = _
      unfold goJoin
      rw [if_pos rfl, if_neg htf.1]
      exact goClean_normal_single _ htf
    | true =>
      show generateTestFilePathL ('/' :: file) =
        '/' :: (goTrimSuffix file (goExt file) ++ "_fuzz".data ++ goExt file)
      have hsp : goSplit ('/' :: file) = (['/'], file) := goSplit_append file hf []
      rw [generateTestFilePathL_eq, hsp]
      show goJoin ['/'] (goTrimSuffix file (goExt file) ++ "_fuzz".data ++ goExt file) = _
      unfold goJoin
      rw [if_neg (by simp)]
      show goClean ('/' :: '/' ::
        (goTrimSuffix file (goExt file) ++ "_fuzz".data ++ goExt file)) = _
      exact goClean_root_double _ htf
  | cons c₁ rest =>
    have hp : pathOf root ((c₁ :: rest) ++ [file]) =
        pathOf root (c₁ :: rest) ++ '/' :: file := by
      unfold pathOf
      rw [joinSlash_append_last _ file (by simp), ← List.append_assoc]
    rw [hp, generateTestFilePathL_eq, goSplit_append file hf (pathOf root (c₁ :: rest))]
    show goJoin (pathOf root (c₁ :: rest) ++ ['/'])
      (goTrimSuffix file (goExt file) ++ "_fuzz".data ++ goExt file) = _
    unfold goJoin
    rw [if_neg (by simp)]
    rw [List.append_assoc]
    show goClean (pathOf root (c₁ :: rest) ++ '/' :: '/' ::
      (goTrimSuffix file (goExt file) ++ "_fuzz".data ++ goExt file)) = _
    exact goClean_dir root c₁ rest _ hc htf

/-- Witness for C6 (amended) at the concrete canonical path `d/Foo.sol`. -/
theorem C6_witness :
    generateTestFilePathL (pathOf false ([['d']] ++ ["Foo.sol".data])) =
      pathOf false ([['d']] ++ [goTrimSuffix "Foo.sol".data (goExt "Foo.sol".data) ++
        "_fuzz".data ++ goExt "Foo.sol".data]) :=
  C6_derive_canonical.2.2 false [['d']] "Foo.sol".data (by decide) (by decide)
